import Mathlib

/-!
Verification of the reduced-embeddings-analysis repository (Rust).

The development shallowly embeds the repository's core data model and
operations:

* `ConfusionMatrix` and its constructor and metrics (src/src/misc.rs);
* the threshold search of `Result` (src/src/main.rs): `get_confusion_matrix`,
  `calc`, `calc_rel`, `calc_return_false`.  The Rust code unwraps the result
  of a minimum over the candidate list, panicking when both distance
  collections are empty; the embedding returns `Option`, with `none`
  modelling the panic;
* the embedding cache `Recognition` (src/src/arcface.rs) with the external
  file system, serde and face pipeline passed in as function parameters;
* the dataset providers `Lfw` and `Cplfw` (src/src/lfw.rs, src/src/cplfw.rs);
* the feature-subset strategies `random_dims`, `random_dims_full` and
  `heatmap` (src/src/main.rs), with the external random shuffle passed in as
  a parameter and `f32` arithmetic idealized over `ℚ`.

Distances are generic over a linear order where the Rust code is generic
over `PartialOrd` (it is instantiated at `f32` and `i32`; the sort and
minimum unwrap `partial_cmp`, so only totally ordered values reach them).
-/

/-- Confusion matrix (src/src/misc.rs).  Field names follow the source
(`fne` is the source's name for the false-negative count, `fn` being a Rust
keyword). -/
structure ConfusionMatrix where
  tp : Int
  fne : Int
  tn : Int
  fp : Int
deriving DecidableEq

/-- ConfusionMatrix::new (src/src/misc.rs lines 33-43): `tp` counts
same-distances at most the threshold, `fne = |same| - tp`, `tn` counts
diff-distances strictly above the threshold, `fp = |diff| - tn`.  The Rust
counts are `usize`/`i32`; collection lengths in use are far below `2^31`, so
they are embedded into `Int` without wrap-around. -/
def ConfusionMatrix.new {T : Type} [LinearOrder T] (threshold : T)
    (same diff : List T) : ConfusionMatrix :=
  let tp : Int := ((same.filter (fun x => decide (x ≤ threshold))).length : Int)
  let fne : Int := (same.length : Int) - tp
  let tn : Int := ((diff.filter (fun x => decide (threshold < x))).length : Int)
  let fp : Int := (diff.length : Int) - tn
  { tp := tp, fne := fne, tn := tn, fp := fp }

/-- ConfusionMatrix::amount_false (src/src/misc.rs lines 45-47). -/
def ConfusionMatrix.amount_false (c : ConfusionMatrix) : Int :=
  c.fne + c.fp

/-- ConfusionMatrix::amount_pos (src/src/misc.rs lines 49-51). -/
def ConfusionMatrix.amount_pos (c : ConfusionMatrix) : Int :=
  c.tp + c.tn

/-- Value of an IEEE `f32` division of two integer-valued operands: a finite
quotient (the rounding of the finite value to `f32` is abstracted to the
exact rational), NaN for `0/0`, or a signed infinity for `x/0` with
`x ≠ 0`. -/
inductive F32Div where
  | num (q : ℚ)
  | nan : F32Div
  | inf (neg : Bool)
deriving DecidableEq

/-- IEEE `f32` division `a as f32 / b as f32` for integers `a`, `b`, in the
model of `F32Div`. -/
def f32div (a b : Int) : F32Div :=
  if b = 0 then (if a = 0 then F32Div.nan else F32Div.inf (decide (a < 0)))
  else F32Div.num ((a : ℚ) / (b : ℚ))

/-- ConfusionMatrix::false_discovery_rate (src/src/misc.rs lines 53-55):
`fp as f32 / (fp + tp) as f32`. -/
def ConfusionMatrix.false_discovery_rate (c : ConfusionMatrix) : F32Div :=
  f32div c.fp (c.fp + c.tp)

/-- ConfusionMatrix::false_omission_rate (src/src/misc.rs lines 57-59):
`fne as f32 / (fne + tn) as f32`. -/
def ConfusionMatrix.false_omission_rate (c : ConfusionMatrix) : F32Div :=
  f32div c.fne (c.fne + c.tn)

/-- The distance store of src/src/main.rs: `Result<T>` holds the distances
of same-person pairs and of different-person pairs. -/
structure Result (T : Type) where
  same : List T
  diff : List T
deriving DecidableEq

/-- Result::amount_false (src/src/main.rs lines 78-80). -/
def Result.amount_false {T : Type} [LinearOrder T] (r : Result T)
    (threshold : T) : Int :=
  (ConfusionMatrix.new threshold r.same r.diff).amount_false

/-- The candidate threshold list of Result::get_confusion_matrix
(src/src/main.rs lines 93-99): all observed distances of both collections,
sorted ascending (`sort_by` with `partial_cmp`). -/
def Result.thresholds {T : Type} [LinearOrder T] (r : Result T) : List T :=
  List.insertionSort (fun a b => a ≤ b) (r.same ++ r.diff)

/-- Rust Iterator::min_by: the first element minimizing the key, `none` on an
empty list (the source unwraps this, panicking on the empty list). -/
def minByFirst {T κ : Type} [LinearOrder κ] (key : T → κ) : List T → Option T
  | [] => none
  | x :: xs => some (xs.foldl (fun acc y => if key y < key acc then y else acc) x)

/-- The minimizing threshold of Result::get_confusion_matrix and
Result::calc_return_false (src/src/main.rs lines 102-107 and 136-141). -/
def Result.best_threshold {T : Type} [LinearOrder T] (r : Result T) :
    Option T :=
  minByFirst r.amount_false r.thresholds

/-- Result::get_confusion_matrix (src/src/main.rs lines 91-113); `none`
models the panic of the unwrap on an empty candidate list. -/
def Result.get_confusion_matrix {T : Type} [LinearOrder T] (r : Result T) :
    Option (T × ConfusionMatrix) :=
  (r.best_threshold).map (fun t => (t, ConfusionMatrix.new t r.same r.diff))

/-- Result::calc (src/src/main.rs lines 82-89): the formatted line
`"{best_threshold};{fp};{fn}"`, abstracted to the triple it formats. -/
def Result.calc {T : Type} [LinearOrder T] (r : Result T) :
    Option (T × Int × Int) :=
  (r.get_confusion_matrix).map (fun p => (p.1, p.2.fp, p.2.fne))

/-- Result::calc_rel (src/src/main.rs lines 115-123): the formatted line
with the two rates, abstracted to the triple it formats. -/
def Result.calc_rel {T : Type} [LinearOrder T] (r : Result T) :
    Option (T × F32Div × F32Div) :=
  (r.get_confusion_matrix).map
    (fun p => (p.1, p.2.false_discovery_rate, p.2.false_omission_rate))

/-- Result::calc_return_false (src/src/main.rs lines 125-148): recomputes the
best threshold the same way and returns `fne + fp` there. -/
def Result.calc_return_false {T : Type} [LinearOrder T] (r : Result T) :
    Option Int :=
  (minByFirst r.amount_false r.thresholds).map
    (fun t => (ConfusionMatrix.new t r.same r.diff).fne +
      (ConfusionMatrix.new t r.same r.diff).fp)

/-- C2: for every threshold and distance collections, ConfusionMatrix::new
computes `tp` as the count of same-distances at most the threshold,
`fne = |same| - tp`, `tn` as the count of diff-distances above the threshold,
`fp = |diff| - tn`; consequently `tp + fne = |same|` and `tn + fp = |diff|`. -/
theorem ConfusionMatrix.new_counts {T : Type} [LinearOrder T] (threshold : T)
    (same diff : List T) :
    (ConfusionMatrix.new threshold same diff).tp
        = ((same.filter (fun x => decide (x ≤ threshold))).length : Int) ∧
    (ConfusionMatrix.new threshold same diff).fne
        = (same.length : Int) - (ConfusionMatrix.new threshold same diff).tp ∧
    (ConfusionMatrix.new threshold same diff).tn
        = ((diff.filter (fun x => decide (threshold < x))).length : Int) ∧
    (ConfusionMatrix.new threshold same diff).fp
        = (diff.length : Int) - (ConfusionMatrix.new threshold same diff).tn ∧
    (ConfusionMatrix.new threshold same diff).tp
        + (ConfusionMatrix.new threshold same diff).fne = (same.length : Int) ∧
    (ConfusionMatrix.new threshold same diff).tn
        + (ConfusionMatrix.new threshold same diff).fp = (diff.length : Int) := by
  refine ⟨rfl, rfl, rfl, rfl, ?_, ?_⟩ <;> simp [ConfusionMatrix.new]

/-- C3 (counterexample): on same-distances `[1,4,9]` and diff-distances
`[2,5,8]`, the claimed values at threshold 4 (`tn = 1`, `fp = 2`,
`amountFalse = 3`) and the claimed best threshold 4 do not all hold of the
code. -/
theorem threshold_example_claim_refuted :
    ¬ ((ConfusionMatrix.new (4 : ℤ) [1, 4, 9] [2, 5, 8]).tn = 1 ∧
       (ConfusionMatrix.new (4 : ℤ) [1, 4, 9] [2, 5, 8]).fp = 2 ∧
       (ConfusionMatrix.new (4 : ℤ) [1, 4, 9] [2, 5, 8]).amount_false = 3 ∧
       (Result.mk [1, 4, 9] [2, 5, 8] : Result ℤ).best_threshold = some 4) := by
  decide

/-- C3 (amended): on same-distances `[1,4,9]` and diff-distances `[2,5,8]`,
the candidate thresholds are `[1,2,4,5,8,9]`; at threshold 4 the confusion
matrix is `tp = 2`, `fne = 1`, `tn = 2`, `fp = 1` with `amountFalse = 2`;
the minimum of `amountFalse` over all candidates is 2; and the threshold
search reports best threshold 1, the first candidate in ascending order
attaining that minimum. -/
theorem threshold_example_values :
    (Result.mk [1, 4, 9] [2, 5, 8] : Result ℤ).thresholds = [1, 2, 4, 5, 8, 9] ∧
    ConfusionMatrix.new (4 : ℤ) [1, 4, 9] [2, 5, 8]
        = ConfusionMatrix.mk 2 1 2 1 ∧
    (ConfusionMatrix.new (4 : ℤ) [1, 4, 9] [2, 5, 8]).amount_false = 2 ∧
    (∀ u ∈ [(1 : ℤ), 2, 4, 5, 8, 9],
        2 ≤ (ConfusionMatrix.new u [1, 4, 9] [2, 5, 8]).amount_false) ∧
    (Result.mk [1, 4, 9] [2, 5, 8] : Result ℤ).best_threshold = some 1 ∧
    (Result.mk [1, 4, 9] [2, 5, 8] : Result ℤ).calc_return_false = some 2 := by
  refine ⟨by decide, by decide, by decide, by decide, by decide, by decide⟩

/-- C10: with both distance collections empty, every threshold-search entry
point of `Result` has no value: the Rust code unwraps the minimum over an
empty candidate list and panics, so every threshold-search property carries
the implicit precondition that at least one distance was observed. -/
theorem Result.empty_distances_undefined {T : Type} [LinearOrder T] :
    (Result.mk [] [] : Result T).get_confusion_matrix = none ∧
    (Result.mk [] [] : Result T).calc = none ∧
    (Result.mk [] [] : Result T).calc_rel = none ∧
    (Result.mk [] [] : Result T).calc_return_false = none :=
  ⟨rfl, rfl, rfl, rfl⟩

/-- The fold of Rust Iterator::min_by returns an element of the list it
scanned. -/
lemma foldl_minBy_mem {T κ : Type} [LinearOrder κ] (key : T → κ) (x : T)
    (xs : List T) :
    xs.foldl (fun acc y => if key y < key acc then y else acc) x ∈ x :: xs := by
  induction xs generalizing x with
  | nil => simp
  | cons z zs ih =>
    have h := ih (if key z < key x then z else x)
    simp only [List.foldl_cons]
    by_cases hc : key z < key x
    · rw [if_pos hc] at h ⊢
      exact List.mem_cons_of_mem x h
    · rw [if_neg hc] at h ⊢
      rcases List.mem_cons.mp h with h | h
      · exact List.mem_cons.mpr (Or.inl h)
      · exact List.mem_cons_of_mem _ (List.mem_cons_of_mem _ h)

/-- The fold of Rust Iterator::min_by minimizes the key over the list it
scanned. -/
lemma foldl_minBy_le {T κ : Type} [LinearOrder κ] (key : T → κ) (x : T)
    (xs : List T) :
    ∀ u ∈ x :: xs,
      key (xs.foldl (fun acc y => if key y < key acc then y else acc) x) ≤ key u := by
  induction xs generalizing x with
  | nil => simp
  | cons z zs ih =>
    intro u hu
    simp only [List.foldl_cons]
    have hs : key (if key z < key x then z else x) ≤ key x ∧
        key (if key z < key x then z else x) ≤ key z := by
      by_cases hc : key z < key x
      · rw [if_pos hc]; exact ⟨hc.le, le_refl _⟩
      · rw [if_neg hc]; exact ⟨le_refl _, le_of_not_lt hc⟩
    have hr := ih (if key z < key x then z else x)
    have hhead := hr _ (List.mem_cons_self _ _)
    rw [List.mem_cons, List.mem_cons] at hu
    rcases hu with rfl | rfl | hu
    · exact le_trans hhead hs.1
    · exact le_trans hhead hs.2
    · exact hr u (List.mem_cons_of_mem _ hu)

/-- Specification of `minByFirst` on a nonempty list: it yields a member of
the list whose key is minimal. -/
lemma minByFirst_spec {T κ : Type} [LinearOrder κ] (key : T → κ) (l : List T)
    (h : l ≠ []) :
    ∃ t, minByFirst key l = some t ∧ t ∈ l ∧ ∀ u ∈ l, key t ≤ key u := by
  cases l with
  | nil => exact absurd rfl h
  | cons x xs => exact ⟨_, rfl, foldl_minBy_mem key x xs, foldl_minBy_le key x xs⟩

/-- The candidate list is a permutation of the observed distances. -/
lemma Result.thresholds_perm {T : Type} [LinearOrder T] (r : Result T) :
    r.thresholds.Perm (r.same ++ r.diff) :=
  List.perm_insertionSort (fun a b => a ≤ b) (r.same ++ r.diff)

/-- C1: with at least one observed distance, the threshold search returns a
threshold that is one of the observed distance values, its confusion matrix
is the one computed at that threshold, its `amountFalse` is minimal over all
observed distance values, and Result::calc_return_false returns exactly that
minimal `amountFalse`. -/
theorem Result.get_confusion_matrix_optimal {T : Type} [LinearOrder T]
    (r : Result T) (h : r.same ++ r.diff ≠ []) :
    ∃ t cm, r.get_confusion_matrix = some (t, cm) ∧
      t ∈ r.same ++ r.diff ∧
      cm = ConfusionMatrix.new t r.same r.diff ∧
      (∀ u ∈ r.same ++ r.diff,
        cm.amount_false ≤ (ConfusionMatrix.new u r.same r.diff).amount_false) ∧
      r.calc_return_false = some cm.amount_false := by
  have hperm := r.thresholds_perm
  have hne : r.thresholds ≠ [] := by
    intro hnil
    rw [hnil] at hperm
    exact h hperm.symm.eq_nil
  obtain ⟨t, hmin, hmem, hle⟩ := minByFirst_spec r.amount_false r.thresholds hne
  refine ⟨t, ConfusionMatrix.new t r.same r.diff, ?_, ?_, rfl, ?_, ?_⟩
  · unfold Result.get_confusion_matrix Result.best_threshold
    rw [hmin]
    rfl
  · exact hperm.mem_iff.mp hmem
  · intro u hu
    exact hle u (hperm.mem_iff.mpr hu)
  · unfold Result.calc_return_false
    rw [hmin]
    rfl

/-- Witness for C1 at the concrete input of the spec's worked example. -/
theorem Result.get_confusion_matrix_optimal_witness :
    ∃ t cm,
      (Result.mk [1, 4, 9] [2, 5, 8] : Result ℤ).get_confusion_matrix = some (t, cm) ∧
      t ∈ [(1 : ℤ), 4, 9] ++ [2, 5, 8] ∧
      cm = ConfusionMatrix.new t [1, 4, 9] [2, 5, 8] ∧
      (∀ u ∈ [(1 : ℤ), 4, 9] ++ [2, 5, 8],
        cm.amount_false ≤ (ConfusionMatrix.new u [1, 4, 9] [2, 5, 8]).amount_false) ∧
      (Result.mk [1, 4, 9] [2, 5, 8] : Result ℤ).calc_return_false = some cm.amount_false :=
  Result.get_confusion_matrix_optimal (Result.mk [1, 4, 9] [2, 5, 8] : Result ℤ)
    (by decide)

/-- All four counts of ConfusionMatrix::new are nonnegative. -/
lemma ConfusionMatrix.new_nonneg {T : Type} [LinearOrder T] (threshold : T)
    (same diff : List T) :
    0 ≤ (ConfusionMatrix.new threshold same diff).tp ∧
    0 ≤ (ConfusionMatrix.new threshold same diff).fne ∧
    0 ≤ (ConfusionMatrix.new threshold same diff).tn ∧
    0 ≤ (ConfusionMatrix.new threshold same diff).fp := by
  have h1 := List.length_filter_le (fun x => decide (x ≤ threshold)) same
  have h2 := List.length_filter_le (fun x => decide (threshold < x)) diff
  simp only [ConfusionMatrix.new]
  refine ⟨by positivity, ?_, by positivity, ?_⟩ <;> simp <;> omega

/-- C8: the false-discovery rate is the `f32` division `fp / (fp + tp)` and
the false-omission rate the `f32` division `fne / (fne + tn)`; on every
matrix produced by ConfusionMatrix::new, a zero denominator forces a zero
numerator as well, so the rate is the well-defined sentinel NaN (the
division is total: nothing is raised). -/
theorem ConfusionMatrix.rates_sentinel {T : Type} [LinearOrder T]
    (threshold : T) (same diff : List T) :
    ((ConfusionMatrix.new threshold same diff).false_discovery_rate
        = f32div (ConfusionMatrix.new threshold same diff).fp
            ((ConfusionMatrix.new threshold same diff).fp
              + (ConfusionMatrix.new threshold same diff).tp)) ∧
    ((ConfusionMatrix.new threshold same diff).fp
          + (ConfusionMatrix.new threshold same diff).tp = 0 →
      (ConfusionMatrix.new threshold same diff).false_discovery_rate
        = F32Div.nan) ∧
    ((ConfusionMatrix.new threshold same diff).false_omission_rate
        = f32div (ConfusionMatrix.new threshold same diff).fne
            ((ConfusionMatrix.new threshold same diff).fne
              + (ConfusionMatrix.new threshold same diff).tn)) ∧
    ((ConfusionMatrix.new threshold same diff).fne
          + (ConfusionMatrix.new threshold same diff).tn = 0 →
      (ConfusionMatrix.new threshold same diff).false_omission_rate
        = F32Div.nan) := by
  obtain ⟨htp, hfne, htn, hfp⟩ := ConfusionMatrix.new_nonneg threshold same diff
  refine ⟨rfl, ?_, rfl, ?_⟩
  · intro h0
    have hz : (ConfusionMatrix.new threshold same diff).fp = 0 := by omega
    have hz2 : (ConfusionMatrix.new threshold same diff).tp = 0 := by omega
    simp [ConfusionMatrix.false_discovery_rate, f32div, h0, hz, hz2]
  · intro h0
    have hz : (ConfusionMatrix.new threshold same diff).fne = 0 := by omega
    have hz2 : (ConfusionMatrix.new threshold same diff).tn = 0 := by omega
    simp [ConfusionMatrix.false_omission_rate, f32div, h0, hz, hz2]

/-- Witness for C8: on empty distance collections both denominators are zero
and both rates are the NaN sentinel. -/
theorem ConfusionMatrix.rates_sentinel_witness :
    (ConfusionMatrix.new (0 : ℤ) [] []).false_discovery_rate = F32Div.nan ∧
    (ConfusionMatrix.new (0 : ℤ) [] []).false_omission_rate = F32Div.nan :=
  ⟨(ConfusionMatrix.rates_sentinel (0 : ℤ) [] []).2.1 (by decide),
   (ConfusionMatrix.rates_sentinel (0 : ℤ) [] []).2.2.2 (by decide)⟩

/-- Errors of the recognition component (enum Error, src/src/arcface.rs
lines 27-38). -/
inductive RecError where
  | deserializeError
  | retinafaceError
  | fastdetError
deriving DecidableEq

/-- Recognition (src/src/arcface.rs lines 57-73): the embedding cache, the
two external models and the optional cache path.  The HashMap is embedded
as an association list with replacing insert; `F` and `A` stand for the
external Retinaface and ArcFace model types, `P` for PathBuf and `Emb` for
the embedding vectors. -/
structure Recognition (P Emb F A : Type) where
  emb : List (P × Emb)
  face : F
  arcface : A
  cache_path : Option P
deriving DecidableEq

/-- HashMap::contains_key on the association-list embedding of the cache. -/
def mapContains {P Emb : Type} [DecidableEq P] (m : List (P × Emb)) (k : P) :
    Bool :=
  m.any (fun e => decide (e.1 = k))

/-- HashMap::insert on the association-list embedding: the new binding
replaces any old binding of the key. -/
def mapInsert {P Emb : Type} [DecidableEq P] (m : List (P × Emb)) (k : P)
    (v : Emb) : List (P × Emb) :=
  (k, v) :: m.filter (fun e => decide (¬ e.1 = k))

/-- Number of bindings a key has in the association-list cache. -/
def mapCountKey {P Emb : Type} [DecidableEq P] (m : List (P × Emb)) (k : P) :
    Nat :=
  (m.filter (fun e => decide (e.1 = k))).length

/-- Recognition::new (src/src/arcface.rs lines 100-129).  External effects
are passed as functions: `read_to_string` is the outcome of
std::fs::read_to_string on a path (`none` models Err, the unreadable file),
`deserialize` the outcome of serde_json::from_str (`none` models the
malformed file, mapped to DeserializeError by the question-mark operator),
`retinaface_new` the outcome of Retinaface::new and `arcface_new` the
constructed ArcFace model. -/
def Recognition.new {P Emb F A : Type} (path : Option P)
    (read_to_string : P → Option String)
    (deserialize : String → Option (List (P × Emb)))
    (retinaface_new : Except RecError F) (arcface_new : A) :
    Except RecError (Recognition P Emb F A) :=
  match (match path with
    | some p =>
      match read_to_string p with
      | some data =>
        match deserialize data with
        | some m => Except.ok m
        | none => Except.error RecError.deserializeError
      | none => Except.ok []
    | none => Except.ok ([] : List (P × Emb))) with
  | Except.error e => Except.error e
  | Except.ok emb =>
    match retinaface_new with
    | Except.error e => Except.error e
    | Except.ok face =>
      Except.ok { emb := emb, face := face, arcface := arcface_new,
                  cache_path := path }

/-- C4: cache loading in Recognition::new distinguishes unreadable from
malformed: given a path whose file is unreadable it starts from the empty
cache and returns no error (the face models constructing fine), while given
readable but non-deserializable contents it fails with
Error::DeserializeError, before the face-model outcome is even consulted. -/
theorem Recognition.new_unreadable_vs_malformed {P Emb F A : Type} (p : P)
    (read_to_string : P → Option String)
    (deserialize : String → Option (List (P × Emb)))
    (retinaface_new : Except RecError F) (arcface_new : A) :
    (read_to_string p = none → ∀ f, retinaface_new = Except.ok f →
      Recognition.new (some p) read_to_string deserialize retinaface_new
          arcface_new
        = Except.ok { emb := [], face := f, arcface := arcface_new,
                      cache_path := some p }) ∧
    (∀ data, read_to_string p = some data → deserialize data = none →
      Recognition.new (some p) read_to_string deserialize retinaface_new
          arcface_new
        = Except.error RecError.deserializeError) := by
  constructor
  · intro h f hf
    simp [Recognition.new, h, hf]
  · intro data h hd
    simp [Recognition.new, h, hd]

/-- A file system in which no path is readable, for the C4 witness. -/
def noReadFile : Nat → Option String := fun _ => none

/-- A file system whose file holds undeserializable text, for the C4
witness. -/
def readBadFile : Nat → Option String := fun _ => some ("not a cache")

/-- A serde outcome that deserializes nothing, for the C4 witness. -/
def noParse : String → Option (List (Nat × Nat)) := fun _ => none

/-- Witness for C4: a missing cache file gives the empty cache without an
error, a malformed one gives DeserializeError. -/
theorem Recognition.new_unreadable_vs_malformed_witness :
    Recognition.new (some 0) noReadFile noParse (Except.ok ()) ()
      = Except.ok (Recognition.mk [] () () (some 0)) ∧
    Recognition.new (some 0) readBadFile noParse (Except.ok ()) ()
      = Except.error RecError.deserializeError :=
  ⟨(Recognition.new_unreadable_vs_malformed 0 noReadFile noParse
      (Except.ok ()) ()).1 rfl () rfl,
   (Recognition.new_unreadable_vs_malformed 0 readBadFile noParse
      (Except.ok ()) ()).2 ("not a cache") rfl rfl⟩

/-- Recognition::add (src/src/arcface.rs lines 131-137): insert the binding
and, when a cache path is configured, serialize the whole map and write it
to disk.  The write is modelled by its count; serialization is external. -/
def Recognition.add {P Emb F A : Type} [DecidableEq P]
    (r : Recognition P Emb F A) (filename : P) (e : Emb) :
    Recognition P Emb F A × Nat :=
  ({ r with emb := mapInsert r.emb filename e },
   match r.cache_path with
   | some _ => 1
   | none => 0)

/-- Recognition::cache_img (src/src/arcface.rs lines 151-174).  The external
face pipeline is passed in: `inference` is the result of
Retinaface::inference on the image read from the filename (the list of
detected faces) and `emb_of` covers the most-centered-face selection,
warping and ArcFace::calc_emb on those detections.  The value is the new
state, the number of face-pipeline invocations and the number of disk
writes the call performed. -/
def Recognition.cache_img {P Emb F A Face : Type} [DecidableEq P]
    (inference : P → List Face) (emb_of : P → List Face → Emb)
    (r : Recognition P Emb F A) (filename : P) :
    Recognition P Emb F A × Nat × Nat :=
  if mapContains r.emb filename then (r, 0, 0)
  else
    if (inference filename).isEmpty then (r, 1, 0)
    else
      ((r.add filename (emb_of filename (inference filename))).1, 1,
        (r.add filename (emb_of filename (inference filename))).2)

/-- After a replacing insert the key has exactly one binding. -/
lemma mapCountKey_insert {P Emb : Type} [DecidableEq P]
    (m : List (P × Emb)) (k : P) (v : Emb) :
    mapCountKey (mapInsert m k v) k = 1 := by
  simp only [mapCountKey, mapInsert, List.filter_cons]
  simp [List.filter_filter]

/-- After a replacing insert the key is contained. -/
lemma mapContains_insert {P Emb : Type} [DecidableEq P]
    (m : List (P × Emb)) (k : P) (v : Emb) :
    mapContains (mapInsert m k v) k = true := by
  simp [mapContains, mapInsert]

/-- Recognition::cache_img does nothing on an already-cached filename. -/
lemma cache_img_cached_noop {P Emb F A Face : Type} [DecidableEq P]
    (inference : P → List Face) (emb_of : P → List Face → Emb)
    (r : Recognition P Emb F A) (filename : P)
    (h : mapContains r.emb filename = true) :
    Recognition.cache_img inference emb_of r filename = (r, 0, 0) := by
  simp [Recognition.cache_img, h]

/-- C5 (amended): Recognition::cache_img is a no-op on an already-cached
filename (no pipeline call, no insertion, no disk write); for an uncached
filename on which the face pipeline detects at least one face, calling it
twice stores exactly one embedding for that filename and invokes the
pipeline exactly once in total: the first call invokes it once, and the
second call is a no-op with no pipeline call and no disk write. -/
theorem Recognition.cache_img_idempotent {P Emb F A Face : Type}
    [DecidableEq P] (inference : P → List Face) (emb_of : P → List Face → Emb)
    (r : Recognition P Emb F A) (filename : P) :
    (mapContains r.emb filename = true →
      Recognition.cache_img inference emb_of r filename = (r, 0, 0)) ∧
    (mapContains r.emb filename = false →
      (inference filename).isEmpty = false →
      (Recognition.cache_img inference emb_of r filename).2.1 = 1 ∧
      mapCountKey (Recognition.cache_img inference emb_of r filename).1.emb
          filename = 1 ∧
      Recognition.cache_img inference emb_of
          (Recognition.cache_img inference emb_of r filename).1 filename
        = ((Recognition.cache_img inference emb_of r filename).1, 0, 0)) := by
  constructor
  · intro h
    exact cache_img_cached_noop inference emb_of r filename h
  · intro h1 h2
    refine ⟨?_, ?_, ?_⟩
    · simp [Recognition.cache_img, h1, h2]
    · simp [Recognition.cache_img, h1, h2, Recognition.add, mapCountKey_insert]
    · have hstate :
          (Recognition.cache_img inference emb_of r filename).1.emb
            = mapInsert r.emb filename (emb_of filename (inference filename)) := by
        simp [Recognition.cache_img, h1, h2, Recognition.add]
      have hc : mapContains
          (Recognition.cache_img inference emb_of r filename).1.emb filename
            = true := by
        rw [hstate]
        exact mapContains_insert _ _ _
      exact cache_img_cached_noop inference emb_of _ filename hc

/-- A pipeline detecting one face, for the C5 witness. -/
def oneFaceInference : Nat → List Unit := fun _ => [()]

/-- A pipeline detecting no face, for the C5 counterexample. -/
def noFaceInference : Nat → List Unit := fun _ => []

/-- A trivial embedding computation, for the C5 theorems. -/
def constEmbOf : Nat → List Unit → Nat := fun _ _ => 0

/-- An empty recognition state without a cache path, for the C5 theorems. -/
def emptyRec : Recognition Nat Nat Unit Unit := Recognition.mk [] () () none

/-- Witness for C5: on a fresh filename with one detected face, the first
call stores one embedding with one pipeline invocation and the second call
is a no-op. -/
theorem Recognition.cache_img_idempotent_witness :
    (Recognition.cache_img oneFaceInference constEmbOf emptyRec 5).2.1 = 1 ∧
    mapCountKey
        (Recognition.cache_img oneFaceInference constEmbOf emptyRec 5).1.emb
        5 = 1 ∧
    Recognition.cache_img oneFaceInference constEmbOf
        (Recognition.cache_img oneFaceInference constEmbOf emptyRec 5).1 5
      = ((Recognition.cache_img oneFaceInference constEmbOf emptyRec 5).1,
          0, 0) :=
  (Recognition.cache_img_idempotent oneFaceInference constEmbOf emptyRec
    5).2 rfl rfl

/-- C5 (counterexample): on an uncached image where the face pipeline
detects no face, each of two calls of Recognition::cache_img invokes the
pipeline once more and stores nothing, so calling it twice gives two
pipeline invocations and zero stored embeddings, not one and one. -/
theorem cache_img_twice_zero_faces :
    Recognition.cache_img noFaceInference constEmbOf emptyRec 5
      = (emptyRec, 1, 0) ∧
    Recognition.cache_img noFaceInference constEmbOf
        (Recognition.cache_img noFaceInference constEmbOf emptyRec 5).1 5
      = (emptyRec, 1, 0) ∧
    (Recognition.cache_img noFaceInference constEmbOf emptyRec 5).2.1
      + (Recognition.cache_img noFaceInference constEmbOf
          (Recognition.cache_img noFaceInference constEmbOf emptyRec 5).1
          5).2.1 ≠ 1 ∧
    mapCountKey (Recognition.cache_img noFaceInference constEmbOf
        (Recognition.cache_img noFaceInference constEmbOf emptyRec 5).1
        5).1.emb 5 ≠ 1 := by
  refine ⟨by decide, by decide, by decide, by decide⟩

/-- A pair of LFW validation images (src/src/lfw.rs lines 36-47); when
`name2` is not set, the second image is of the same person as the first. -/
structure Pair where
  name : String
  nr : String
  name2 : Option String
  nr2 : String
  basepath : String
deriving DecidableEq

/-- The Rust format fragment `{:0>4}`: pad on the left with the character 0
to a width of at least 4. -/
def padZero4 (s : String) : String :=
  if s.length < 4 then String.mk (List.replicate (4 - s.length) '0') ++ s
  else s

/-- Pair::same_person (src/src/lfw.rs lines 70-72). -/
def Pair.same_person (p : Pair) : Bool :=
  p.name2.isNone

/-- Pair::get_path1 (src/src/lfw.rs lines 74-76). -/
def Pair.get_path1 (p : Pair) : String :=
  p.basepath ++ ("/") ++ p.name ++ ("/") ++ p.name ++ ("_")
    ++ padZero4 p.nr ++ (".jpg")

/-- Pair::get_path2 (src/src/lfw.rs lines 78-88). -/
def Pair.get_path2 (p : Pair) : String :=
  match p.name2 with
  | some name2 =>
    p.basepath ++ ("/") ++ name2 ++ ("/") ++ name2 ++ ("_")
      ++ padZero4 p.nr2 ++ (".jpg")
  | none =>
    p.basepath ++ ("/") ++ p.name ++ ("/") ++ p.name ++ ("_")
      ++ padZero4 p.nr2 ++ (".jpg")

/-- The LFW dataset (src/src/lfw.rs lines 90-92). -/
structure Lfw where
  pairs : List Pair

/-- Recognition::get (src/src/arcface.rs lines 139-142): the pure
cached-embedding lookup. -/
def Recognition.get {P Emb F A : Type} [DecidableEq P]
    (r : Recognition P Emb F A) (filename : P) : Option Emb :=
  (r.emb.find? (fun e => decide (e.1 = filename))).map Prod.snd

/-- Rust iterator map-and-collect whose body unwraps: the whole traversal
is `none` (a panic) as soon as one element maps to `none`. -/
def optionTraverse {α β : Type} (f : α → Option β) : List α → Option (List β)
  | [] => some []
  | x :: xs =>
    match f x with
    | none => none
    | some y => (optionTraverse f xs).map (fun ys => y :: ys)

/-- Lfw::embeddings (src/src/lfw.rs lines 113-124): maps every pair to its
tuple, unwrapping both cache lookups; `none` models the panic of the unwrap
on an uncached image. -/
def Lfw.embeddings {Emb F A : Type} (l : Lfw)
    (rec : Recognition String Emb F A) : Option (List (Bool × Emb × Emb)) :=
  optionTraverse (fun p =>
    match rec.get p.get_path1 with
    | none => none
    | some e1 =>
      match rec.get p.get_path2 with
      | none => none
      | some e2 => some (p.same_person, e1, e2)) l.pairs

/-- The CPLFW dataset (src/src/cplfw.rs lines 20-23): per pair the label and
the two image paths. -/
structure Cplfw where
  pair : List (Bool × String × String)

/-- Cplfw::embeddings (src/src/cplfw.rs lines 61-76): keeps a pair exactly
when both of its images are cached. -/
def Cplfw.embeddings {Emb F A : Type} (c : Cplfw)
    (rec : Recognition String Emb F A) : List (Bool × Emb × Emb) :=
  c.pair.filterMap (fun x =>
    match rec.get x.2.1 with
    | some e1 =>
      match rec.get x.2.2 with
      | some e2 => some (x.1, e1, e2)
      | none => none
    | none => none)

/-- A traversal whose body succeeds on every element succeeds. -/
lemma optionTraverse_isSome {α β : Type} (f : α → Option β) (xs : List α)
    (h : ∀ x ∈ xs, (f x).isSome) : (optionTraverse f xs).isSome := by
  induction xs with
  | nil => simp [optionTraverse]
  | cons x xs ih =>
    have hx := h x (List.mem_cons_self _ _)
    obtain ⟨y, hy⟩ := Option.isSome_iff_exists.mp hx
    have ht := ih (fun z hz => h z (List.mem_cons_of_mem _ hz))
    obtain ⟨ys, hys⟩ := Option.isSome_iff_exists.mp ht
    simp [optionTraverse, hy, hys]

/-- A traversal with one failing element fails. -/
lemma optionTraverse_eq_none {α β : Type} (f : α → Option β) (xs : List α)
    (x : α) (hx : x ∈ xs) (hf : f x = none) : optionTraverse f xs = none := by
  induction xs with
  | nil => cases hx
  | cons z zs ih =>
    rw [List.mem_cons] at hx
    rcases hx with rfl | hx
    · simp [optionTraverse, hf]
    · cases hz : f z with
      | none => simp [optionTraverse, hz]
      | some y => simp [optionTraverse, hz, ih hx]

/-- A traversal whose body succeeds on every element returns the full,
pointwise list: one output entry per input element, in order. -/
lemma optionTraverse_some_spec {α β : Type} (f : α → Option β) (xs : List α)
    (h : ∀ x ∈ xs, (f x).isSome) :
    ∃ ys, optionTraverse f xs = some ys ∧ ys.length = xs.length ∧
      ∀ (i : Nat) (x : α), xs[i]? = some x → ys[i]? = f x := by
  induction xs with
  | nil =>
    refine ⟨[], rfl, rfl, ?_⟩
    intro i x hx
    simp at hx
  | cons z zs ih =>
    obtain ⟨y, hy⟩ :=
      Option.isSome_iff_exists.mp (h z (List.mem_cons_self _ _))
    obtain ⟨ys, hys, hlen, hpt⟩ := ih (fun x hx => h x (List.mem_cons_of_mem _ hx))
    refine ⟨y :: ys, by simp [optionTraverse, hy, hys], by simp [hlen], ?_⟩
    intro i x hx
    cases i with
    | zero =>
      rw [List.getElem?_cons_zero] at hx
      obtain rfl : z = x := Option.some.inj hx
      rw [List.getElem?_cons_zero, hy]
    | succ n =>
      rw [List.getElem?_cons_succ] at hx
      rw [List.getElem?_cons_succ]
      exact hpt n x hx

/-- An empty recognition cache over string paths, for the C7
counterexample. -/
def emptyRecS : Recognition String Nat Unit Unit := Recognition.mk [] () () none

/-- A recognition cache over string paths holding only the first image of
the C7 counterexample's pair, so that the second lookup is the one that
fails. -/
def halfRecS : Recognition String Nat Unit Unit :=
  Recognition.mk [(("lfw/Aaron/Aaron_0001.jpg"), 7)] () () none

/-- A recognition cache over string paths holding both images of the C7
witness's pair. -/
def fullRecS : Recognition String Nat Unit Unit :=
  Recognition.mk
    [(("lfw/Aaron/Aaron_0001.jpg"), 7), (("lfw/Aaron/Aaron_0002.jpg"), 9)]
    () () none

/-- C7 (counterexample): the LFW-style provider does not filter an uncached
pair out: on a one-pair dataset, Lfw::embeddings panics on the unwrap of a
lookup (modelled as `none`) instead of returning the filtered, empty list,
both when the first image is uncached (empty cache, first unwrap,
src/src/lfw.rs line 119) and when only the second image is uncached (the
second unwrap, src/src/lfw.rs line 120). -/
theorem lfw_uncached_pair_panics :
    Lfw.embeddings (Lfw.mk [Pair.mk ("Aaron") ("1") none ("2") ("lfw")])
        emptyRecS = none ∧
    Lfw.embeddings (Lfw.mk [Pair.mk ("Aaron") ("1") none ("2") ("lfw")])
        emptyRecS ≠ some [] ∧
    (halfRecS.get (Pair.mk ("Aaron") ("1") none ("2") ("lfw")).get_path1
        = some 7) ∧
    (halfRecS.get (Pair.mk ("Aaron") ("1") none ("2") ("lfw")).get_path2
        = none) ∧
    Lfw.embeddings (Lfw.mk [Pair.mk ("Aaron") ("1") none ("2") ("lfw")])
        halfRecS = none ∧
    Lfw.embeddings (Lfw.mk [Pair.mk ("Aaron") ("1") none ("2") ("lfw")])
        halfRecS ≠ some [] := by
  refine ⟨rfl, by decide, by decide, by decide, by decide, by decide⟩

/-- C7 (amended): the CPLFW-style provider filters uncached pairs out with
no failure possible -- its output holds a tuple exactly for the pairs whose
two images are cached; the LFW-style provider does not filter: it panics
(modelled `none`) as soon as one pair has an uncached image, first or
second, and when every image of every pair is cached it returns the full
tuple list, one `(isSame, embeddingA, embeddingB)` tuple per pair, in
order. -/
theorem embeddings_uncached_behaviour {Emb F A : Type} :
    (∀ (c : Cplfw) (rec : Recognition String Emb F A) (s : Bool) (e1 e2 : Emb),
      (s, e1, e2) ∈ Cplfw.embeddings c rec ↔
        ∃ p1 p2, (s, p1, p2) ∈ c.pair ∧ rec.get p1 = some e1 ∧
          rec.get p2 = some e2) ∧
    (∀ (l : Lfw) (rec : Recognition String Emb F A) (p : Pair), p ∈ l.pairs →
      rec.get p.get_path1 = none ∨ rec.get p.get_path2 = none →
      Lfw.embeddings l rec = none) ∧
    (∀ (l : Lfw) (rec : Recognition String Emb F A),
      (∀ p ∈ l.pairs, (rec.get p.get_path1).isSome ∧
        (rec.get p.get_path2).isSome) →
      ∃ out, Lfw.embeddings l rec = some out ∧
        out.length = l.pairs.length ∧
        ∀ (i : Nat) (p : Pair), l.pairs[i]? = some p →
          ∃ e1 e2, rec.get p.get_path1 = some e1 ∧
            rec.get p.get_path2 = some e2 ∧
            out[i]? = some (p.same_person, e1, e2)) := by
  refine ⟨?_, ?_, ?_⟩
  · intro c rec s e1 e2
    rw [Cplfw.embeddings, List.mem_filterMap]
    constructor
    · rintro ⟨⟨sa, p1, p2⟩, ha, hfa⟩
      cases h1 : rec.get p1 with
      | none => rw [h1] at hfa; cases hfa
      | some f1 =>
        cases h2 : rec.get p2 with
        | none => rw [h1, h2] at hfa; cases hfa
        | some f2 =>
          rw [h1, h2] at hfa
          obtain ⟨rfl, rfl, rfl⟩ : sa = s ∧ f1 = e1 ∧ f2 = e2 := by
            simpa using hfa
          exact ⟨p1, p2, ha, h1, h2⟩
    · rintro ⟨p1, p2, hmem, h1, h2⟩
      exact ⟨(s, p1, p2), hmem, by simp [h1, h2]⟩
  · intro l rec p hp hmiss
    apply optionTraverse_eq_none _ l.pairs p hp
    rcases hmiss with h1 | h2
    · simp [h1]
    · cases h1 : rec.get p.get_path1 with
      | none => simp [h1]
      | some e1 => simp [h1, h2]
  · intro l rec h
    have hsome : ∀ p ∈ l.pairs,
        ((fun p : Pair =>
          match rec.get p.get_path1 with
          | none => none
          | some e1 =>
            match rec.get p.get_path2 with
            | none => none
            | some e2 => some (p.same_person, e1, e2)) p).isSome := by
      intro p hp
      obtain ⟨e1, h1⟩ := Option.isSome_iff_exists.mp (h p hp).1
      obtain ⟨e2, h2⟩ := Option.isSome_iff_exists.mp (h p hp).2
      simp [h1, h2]
    obtain ⟨out, hout, hlen, hpt⟩ :=
      optionTraverse_some_spec _ l.pairs hsome
    refine ⟨out, hout, hlen, ?_⟩
    intro i p hip
    have hpmem : p ∈ l.pairs := List.getElem?_mem hip
    obtain ⟨e1, h1⟩ := Option.isSome_iff_exists.mp (h p hpmem).1
    obtain ⟨e2, h2⟩ := Option.isSome_iff_exists.mp (h p hpmem).2
    refine ⟨e1, e2, h1, h2, ?_⟩
    rw [hpt i p hip]
    simp [h1, h2]

/-- Witness for C7 on a concrete one-pair dataset with both images cached:
the full tuple list is returned. -/
theorem embeddings_uncached_behaviour_witness :
    ∃ out,
      Lfw.embeddings (Lfw.mk [Pair.mk ("Aaron") ("1") none ("2") ("lfw")])
          fullRecS = some out ∧
      out.length =
        (Lfw.mk [Pair.mk ("Aaron") ("1") none ("2") ("lfw")]).pairs.length ∧
      ∀ (i : Nat) (p : Pair),
        (Lfw.mk [Pair.mk ("Aaron") ("1") none ("2") ("lfw")]).pairs[i]?
            = some p →
        ∃ e1 e2, fullRecS.get p.get_path1 = some e1 ∧
          fullRecS.get p.get_path2 = some e2 ∧
          out[i]? = some (p.same_person, e1, e2) :=
  embeddings_uncached_behaviour.2.2
    (Lfw.mk [Pair.mk ("Aaron") ("1") none ("2") ("lfw")]) fullRecS
    (by decide)

/-- Squared Euclidean distance over a dimension subset (the inner loop of
random_dims and random_dims_full, src/src/main.rs lines 212-215 and
237-240): the running `dist` accumulates the squared per-dimension
difference over the chosen indices.  `f32` arithmetic is idealized over
`ℚ` and an embedding is its index function. -/
def subset_dist (e1 e2 : Nat → ℚ) (indices : List Nat) : ℚ :=
  indices.foldl
    (fun d index => d + (e1 index - e2 index) * (e1 index - e2 index)) 0

/-- The add_same/add_diff accumulation of the distances of all pair samples
over a dimension subset (src/src/main.rs lines 216-220 and 241-245). -/
def build_result (embs : List (Bool × (Nat → ℚ) × (Nat → ℚ)))
    (indices : List Nat) : Result ℚ :=
  embs.foldl (fun r e =>
    if e.1 then { r with same := r.same ++ [subset_dist e.2.1 e.2.2 indices] }
    else { r with diff := r.diff ++ [subset_dist e.2.1 e.2.2 indices] })
    (Result.mk [] [])

/-- random_dims (src/src/main.rs lines 201-224): 100 trials (`for _ in
1..101`); in trial `t` the vector holding `(0..512)` is shuffled by the
external rand::thread_rng -- modelled by the parameter `shuffle`, whose
value at `t` is the shuffled contents -- cut down to its first
`amount_dimensions` indices, the distances of all pair samples are computed
over that subset and the line `(amount_dimensions, indices, calc)` is
printed as-is.  The returned list holds one entry per printed line. -/
def random_dims (embs : List (Bool × (Nat → ℚ) × (Nat → ℚ)))
    (amount_dimensions : Nat) (shuffle : Nat → List Nat) :
    List (Nat × List Nat × Option (ℚ × Int × Int)) :=
  (List.range 100).map (fun t =>
    (amount_dimensions, (shuffle t).take amount_dimensions,
      (build_result embs ((shuffle t).take amount_dimensions)).calc))

/-- random_dims_full (src/src/main.rs lines 226-249): one trial per size,
the sizes descending from 512 to 1 (`for amount_dimensions in
(1..513).rev()`), the trial of size `k` using the external shuffle
`shuffle k`; each line is printed as-is. -/
def random_dims_full (embs : List (Bool × (Nat → ℚ) × (Nat → ℚ)))
    (shuffle : Nat → List Nat) :
    List (Nat × List Nat × Option (ℚ × Int × Int)) :=
  ((List.range' 1 512).reverse).map (fun amount_dimensions =>
    (amount_dimensions, (shuffle amount_dimensions).take amount_dimensions,
      (build_result embs
        ((shuffle amount_dimensions).take amount_dimensions)).calc))

/-- C6 (counterexample): random_dims_full reports exactly one trial of size
512 (and its whole output for the 512 sizes has 512 lines), not 100 trials
per size: on the concrete input of no pair samples and the identity
shuffle, the count of size-512 lines is 1, not 100. -/
theorem random_dims_full_single_trial :
    ((random_dims_full [] (fun _ => List.range 512)).map Prod.fst).count 512
        = 1 ∧
    (random_dims_full [] (fun _ => List.range 512)).length = 512 ∧
    ¬ (((random_dims_full [] (fun _ => List.range 512)).map Prod.fst).count 512
        = 100) := by
  have hmap : (random_dims_full [] (fun _ => List.range 512)).map Prod.fst
      = (List.range' 1 512).reverse := by
    rw [random_dims_full, List.map_map]
    exact List.map_id _
  have hcount : ((random_dims_full [] (fun _ => List.range 512)).map
      Prod.fst).count 512 = 1 := by
    rw [hmap, List.count_reverse]
    exact List.count_eq_one_of_mem (List.nodup_range' _ _)
      (List.mem_range'_1.mpr (by omega))
  refine ⟨hcount, ?_, by omega⟩
  have := congrArg List.length hmap
  simpa using this

/-- C6 (amended): random_dims performs exactly 100 trials for the one
requested size, the trial of index `t` reporting, as-is, the evaluation of
the first `amount_dimensions` indices of the external shuffle's trial-`t`
permutation, with no running best kept across trials; random_dims_full
performs exactly one trial per size, the sizes being 512 down to 1, each
reported as-is in the same way. -/
theorem random_sampling_structure (embs : List (Bool × (Nat → ℚ) × (Nat → ℚ)))
    (amount_dimensions : Nat) (shuffle : Nat → List Nat) :
    (random_dims embs amount_dimensions shuffle).length = 100 ∧
    (∀ t, t < 100 →
      (random_dims embs amount_dimensions shuffle)[t]?
        = some (amount_dimensions, (shuffle t).take amount_dimensions,
            (build_result embs
              ((shuffle t).take amount_dimensions)).calc)) ∧
    (random_dims_full embs shuffle).map Prod.fst
        = (List.range' 1 512).reverse ∧
    (∀ k, 1 ≤ k → k ≤ 512 →
      ((random_dims_full embs shuffle).map Prod.fst).count k = 1) ∧
    (∀ x ∈ random_dims_full embs shuffle,
      x = (x.1, (shuffle x.1).take x.1,
        (build_result embs ((shuffle x.1).take x.1)).calc)) := by
  have hmap : (random_dims_full embs shuffle).map Prod.fst
      = (List.range' 1 512).reverse := by
    rw [random_dims_full, List.map_map]
    exact List.map_id _
  refine ⟨by simp [random_dims], ?_, hmap, ?_, ?_⟩
  · intro t ht
    rw [random_dims, List.getElem?_map, List.getElem?_range ht]
    rfl
  · intro k h1 h2
    rw [hmap, List.count_reverse]
    exact List.count_eq_one_of_mem (List.nodup_range' _ _)
      (List.mem_range'_1.mpr (by omega))
  · intro x hx
    rw [random_dims_full] at hx
    obtain ⟨k, _, rfl⟩ := List.mem_map.mp hx
    rfl

/-- Witness for C6 at a concrete trial index. -/
theorem random_sampling_structure_witness :
    (random_dims [] 3 (fun _ => [5, 1, 9, 7]))[0]?
      = some (3, [5, 1, 9], (build_result [] [5, 1, 9]).calc) := by
  have h := (random_sampling_structure [] 3 (fun _ => [5, 1, 9, 7])).2.1 0
    (by omega)
  rw [h]
  rfl

/-- Rust Iterator::max_by: the last element maximizing the key, `none` on an
empty list (the source unwraps this, panicking on the empty list). -/
def maxByLast {T κ : Type} [LinearOrder κ] (key : T → κ) : List T → Option T
  | [] => none
  | x :: xs => some (xs.foldl (fun acc y => if key acc ≤ key y then y else acc) x)

/-- The fold of Rust Iterator::max_by returns an element of the list it
scanned. -/
lemma foldl_maxBy_mem {T κ : Type} [LinearOrder κ] (key : T → κ) (x : T)
    (xs : List T) :
    xs.foldl (fun acc y => if key acc ≤ key y then y else acc) x ∈ x :: xs := by
  induction xs generalizing x with
  | nil => simp
  | cons z zs ih =>
    have h := ih (if key x ≤ key z then z else x)
    simp only [List.foldl_cons]
    by_cases hc : key x ≤ key z
    · rw [if_pos hc] at h ⊢
      exact List.mem_cons_of_mem x h
    · rw [if_neg hc] at h ⊢
      rcases List.mem_cons.mp h with h | h
      · exact List.mem_cons.mpr (Or.inl h)
      · exact List.mem_cons_of_mem _ (List.mem_cons_of_mem _ h)

/-- The fold of Rust Iterator::max_by maximizes the key over the list it
scanned. -/
lemma foldl_maxBy_ge {T κ : Type} [LinearOrder κ] (key : T → κ) (x : T)
    (xs : List T) :
    ∀ u ∈ x :: xs,
      key u ≤ key (xs.foldl (fun acc y => if key acc ≤ key y then y else acc) x) := by
  induction xs generalizing x with
  | nil => simp
  | cons z zs ih =>
    intro u hu
    simp only [List.foldl_cons]
    have hs : key x ≤ key (if key x ≤ key z then z else x) ∧
        key z ≤ key (if key x ≤ key z then z else x) := by
      by_cases hc : key x ≤ key z
      · rw [if_pos hc]; exact ⟨hc, le_refl _⟩
      · rw [if_neg hc]; exact ⟨le_refl _, le_of_not_le hc⟩
    have hr := ih (if key x ≤ key z then z else x)
    have hhead := hr _ (List.mem_cons_self _ _)
    rw [List.mem_cons, List.mem_cons] at hu
    rcases hu with rfl | rfl | hu
    · exact le_trans hs.1 hhead
    · exact le_trans hs.2 hhead
    · exact hr u (List.mem_cons_of_mem _ hu)

/-- Specification of `maxByLast` on a nonempty list: it yields a member of
the list whose key is maximal. -/
lemma maxByLast_spec {T κ : Type} [LinearOrder κ] (key : T → κ) (l : List T)
    (h : l ≠ []) :
    ∃ t, maxByLast key l = some t ∧ t ∈ l ∧ ∀ u ∈ l, key u ≤ key t := by
  cases l with
  | nil => exact absurd rfl h
  | cons x xs => exact ⟨_, rfl, foldl_maxBy_mem key x xs, foldl_maxBy_ge key x xs⟩

/-- One per-dimension update of the heatmap accumulation (src/src/main.rs
lines 406-410): subtract the squared per-dimension difference for a
same-person sample, add it for a different-person sample. -/
def impact_step (e : Bool × (Nat → ℚ) × (Nat → ℚ)) (index : Nat) (a : ℚ) : ℚ :=
  if e.1 then a - (e.2.1 index - e.2.2 index) * (e.2.1 index - e.2.2 index)
  else a + (e.2.1 index - e.2.2 index) * (e.2.1 index - e.2.2 index)

/-- The inner index loop of heatmap (src/src/main.rs lines 405-411) applied
to the whole impact vector of one pair sample. -/
def heatmap_step (impact_index : List ℚ) (e : Bool × (Nat → ℚ) × (Nat → ℚ)) :
    List ℚ :=
  impact_index.mapIdx (fun index v => impact_step e index v)

/-- The accumulation loop of heatmap (src/src/main.rs lines 403-412):
`amount_dim` zeros updated by every pair sample in turn. -/
def heatmap_impact (embs : List (Bool × (Nat → ℚ) × (Nat → ℚ)))
    (amount_dim : Nat) : List ℚ :=
  embs.foldl heatmap_step (List.replicate amount_dim 0)

/-- The per-dimension signed score as a direct sum over the pair samples:
the reference reading of the accumulation. -/
def impact_ref (embs : List (Bool × (Nat → ℚ) × (Nat → ℚ))) (index : Nat) :
    ℚ :=
  embs.foldl (fun a e => impact_step e index a) 0

/-- heatmap (src/src/main.rs lines 401-432): accumulate the per-dimension
signed impact over all pair samples, then min-max normalize every entry
with the global minimum and maximum.  `none` models the panic of the
min/max unwrap on an empty impact vector.  Rust min_by keeps the first
minimum, max_by the last maximum; the `f32` arithmetic is idealized over
`ℚ`, which is faithful except in the degenerate all-scores-equal case,
where the Rust division by `max - min = 0` gives NaN or infinities. -/
def heatmap (embs : List (Bool × (Nat → ℚ) × (Nat → ℚ))) (amount_dim : Nat) :
    Option (List ℚ) :=
  match minByFirst (fun v : ℚ => v) (heatmap_impact embs amount_dim),
      maxByLast (fun v : ℚ => v) (heatmap_impact embs amount_dim) with
  | some mn, some mx =>
    some ((heatmap_impact embs amount_dim).map (fun v => (v - mn) / (mx - mn)))
  | _, _ => none

/-- One heatmap step acts pointwise on the impact vector. -/
lemma heatmap_step_getElem (l : List ℚ) (e : Bool × (Nat → ℚ) × (Nat → ℚ))
    (index : Nat) :
    (heatmap_step l e)[index]? = (l[index]?).map (impact_step e index) := by
  rw [heatmap_step, List.getElem?_mapIdx]

/-- The whole accumulation acts pointwise on the impact vector. -/
lemma foldl_heatmap_getElem (embs : List (Bool × (Nat → ℚ) × (Nat → ℚ)))
    (start : List ℚ) (index : Nat) :
    (embs.foldl heatmap_step start)[index]?
      = (start[index]?).map
          (fun v => embs.foldl (fun a e => impact_step e index a) v) := by
  induction embs generalizing start with
  | nil => simp
  | cons e es ih =>
    rw [List.foldl_cons, ih, heatmap_step_getElem]
    cases hidx : start[index]? <;> simp

/-- The accumulation never changes the length of the impact vector. -/
lemma foldl_heatmap_length (embs : List (Bool × (Nat → ℚ) × (Nat → ℚ)))
    (start : List ℚ) :
    (embs.foldl heatmap_step start).length = start.length := by
  induction embs generalizing start with
  | nil => rfl
  | cons e es ih =>
    rw [List.foldl_cons, ih, heatmap_step, List.length_mapIdx]

/-- The impact vector has one entry per dimension. -/
lemma heatmap_impact_length (embs : List (Bool × (Nat → ℚ) × (Nat → ℚ)))
    (amount_dim : Nat) : (heatmap_impact embs amount_dim).length = amount_dim := by
  rw [heatmap_impact, foldl_heatmap_length, List.length_replicate]

/-- Entry `index` of the impact vector is the reference signed score. -/
lemma heatmap_impact_getElem (embs : List (Bool × (Nat → ℚ) × (Nat → ℚ)))
    (amount_dim index : Nat) (h : index < amount_dim) :
    (heatmap_impact embs amount_dim)[index]? = some (impact_ref embs index) := by
  rw [heatmap_impact, foldl_heatmap_getElem, List.getElem?_replicate, if_pos h]
  rfl

/-- C9: the heatmap accumulates per dimension the signed score over all
pair samples (squared per-dimension difference, subtracted for same-person
and added for different-person pairs) and min-max normalizes with the
global minimum and maximum; whenever the raw scores are not all identical,
the output exists, has one entry per dimension, all entries lie in [0,1],
some entry is exactly 0 and some entry is exactly 1. -/
theorem heatmap_normalized (embs : List (Bool × (Nat → ℚ) × (Nat → ℚ)))
    (amount_dim : Nat)
    (h : ∃ x ∈ heatmap_impact embs amount_dim,
      ∃ y ∈ heatmap_impact embs amount_dim, x ≠ y) :
    (∀ index, index < amount_dim →
      (heatmap_impact embs amount_dim)[index]?
        = some (impact_ref embs index)) ∧
    ∃ out, heatmap embs amount_dim = some out ∧
      out.length = amount_dim ∧
      (∀ v ∈ out, 0 ≤ v ∧ v ≤ 1) ∧
      (0 : ℚ) ∈ out ∧ (1 : ℚ) ∈ out := by
  obtain ⟨x, hx, y, hy, hxy⟩ := h
  have hne : heatmap_impact embs amount_dim ≠ [] := List.ne_nil_of_mem hx
  obtain ⟨mn, hminEq, hminMem, hminLe⟩ :=
    minByFirst_spec (fun v : ℚ => v) (heatmap_impact embs amount_dim) hne
  obtain ⟨mx, hmaxEq, hmaxMem, hmaxGe⟩ :=
    maxByLast_spec (fun v : ℚ => v) (heatmap_impact embs amount_dim) hne
  have hlt : mn < mx := by
    rcases lt_or_le mn mx with h' | h'
    · exact h'
    · exfalso
      apply hxy
      have hx1 : x = mn := le_antisymm (le_trans (hmaxGe x hx) h') (hminLe x hx)
      have hy1 : y = mn := le_antisymm (le_trans (hmaxGe y hy) h') (hminLe y hy)
      rw [hx1, hy1]
  have hpos : (0 : ℚ) < mx - mn := sub_pos.mpr hlt
  refine ⟨fun index hidx => heatmap_impact_getElem embs amount_dim index hidx,
    (heatmap_impact embs amount_dim).map (fun v => (v - mn) / (mx - mn)),
    ?_, ?_, ?_, ?_, ?_⟩
  · unfold heatmap
    rw [hminEq, hmaxEq]
  · rw [List.length_map]
    exact heatmap_impact_length embs amount_dim
  · intro v hv
    obtain ⟨w, hw, rfl⟩ := List.mem_map.mp hv
    exact ⟨div_nonneg (sub_nonneg.mpr (hminLe w hw)) (le_of_lt hpos),
      (div_le_one hpos).mpr (sub_le_sub_right (hmaxGe w hw) mn)⟩
  · refine List.mem_map.mpr ⟨mn, hminMem, ?_⟩
    rw [sub_self, zero_div]
  · refine List.mem_map.mpr ⟨mx, hmaxMem, ?_⟩
    exact div_self (ne_of_gt hpos)

/-- The one-sample input of the C9 witness: a different-person pair whose
embeddings differ only in dimension 1. -/
def heatmapSample : List (Bool × (Nat → ℚ) × (Nat → ℚ)) :=
  [(false, fun index => if index = 0 then 0 else 1, fun _ => 0)]

/-- The impact vector of the C9 witness input. -/
lemma heatmapSample_impact : heatmap_impact heatmapSample 2 = [0, 1] := by
  simp [heatmap_impact, heatmapSample, heatmap_step, impact_step,
    List.replicate, List.mapIdx_cons]

/-- Witness for C9 on the concrete one-sample input: the impact vector is
`[0, 1]`, nondegenerate, and the normalized output is defined with the
stated properties. -/
theorem heatmap_normalized_witness :
    (∀ index, index < 2 →
      (heatmap_impact heatmapSample 2)[index]?
        = some (impact_ref heatmapSample index)) ∧
    ∃ out, heatmap heatmapSample 2 = some out ∧
      out.length = 2 ∧
      (∀ v ∈ out, 0 ≤ v ∧ v ≤ 1) ∧
      (0 : ℚ) ∈ out ∧ (1 : ℚ) ∈ out :=
  heatmap_normalized heatmapSample 2
    ⟨0, by rw [heatmapSample_impact]; simp, 1, by rw [heatmapSample_impact]; simp,
      by norm_num⟩
